import Mathlib

/-!
Verification of the regex-driven validation / search layer and the record-store
statistics of the student finance tracker.  JavaScript sources are shallowly
embedded: strings are Lean `String`s, JS numbers are rationals (all numbers the
app manipulates are finite decimals), the ambient clock and timezone are an
explicit `TimeEnv` parameter, and fallible platform calls (regex compilation,
date parsing) return `Option`.
-/

namespace FinanceTracker

/-- JS whitespace characters (`\s` and `trim`): ASCII whitespace plus the
Unicode spaces that matter here. -/
def jsWhitespaceChar (c : Char) : Bool :=
  c = ' ' || c = '\t' || c = '\n' || c = '\r' || c = '\x0b' || c = '\x0c' ||
  c = '\u00A0' || c = '\u2028' || c = '\u2029' || c = '\uFEFF'

/-- ECMAScript line terminators (which `.` does not match). -/
def isLineTermChar (c : Char) : Bool :=
  c = '\n' || c = '\r' || c = '\u2028' || c = '\u2029'

/-- Models `String.prototype.trim`. -/
def jsTrim (s : String) : String :=
  String.mk (((s.toList.dropWhile jsWhitespaceChar).reverse.dropWhile jsWhitespaceChar).reverse)

/-- The `\w` class of JS regexes: ASCII letters, digits and underscore. -/
def isWordChar (c : Char) : Bool := c.isAlpha || c.isDigit || c = '_'

/-- Result shape `{valid, message}` shared by all field validators. -/
structure VResult where
  valid : Bool
  message : String
deriving DecidableEq

/-- Models `patterns.description = /^\S(?:.*\S)?$/`: first character non-whitespace,
optionally anything (`.` excludes line terminators) ending in a non-whitespace
character. -/
def descriptionPatternTest (s : String) : Bool :=
  match s.toList with
  | [] => false
  | [c] => !jsWhitespaceChar c
  | c :: rest =>
      !jsWhitespaceChar c &&
      (match rest.getLast? with
       | some d => !jsWhitespaceChar d
       | none => false) &&
      rest.dropLast.all (fun x => !isLineTermChar x)

/-- Maximal runs of word / non-word characters, tagged `true` for word runs. -/
def charRuns : List Char → List (Bool × List Char)
  | [] => []
  | c :: rest =>
    match charRuns rest with
    | [] => [(isWordChar c, [c])]
    | (b, run) :: more =>
      if b = isWordChar c then (b, c :: run) :: more
      else (isWordChar c, [c]) :: (b, run) :: more

def lowerChars (l : List Char) : List Char := l.map Char.toLower

def dupRunsAux : List (Bool × List Char) → Bool
  | (true, w1) :: (false, u) :: (true, w2) :: rest =>
      (u.all jsWhitespaceChar && lowerChars w1 == lowerChars w2) ||
      dupRunsAux ((false, u) :: (true, w2) :: rest)
  | _ :: rest => dupRunsAux rest
  | [] => false

/-- Models `patterns.duplicateWords = /\b(\w+)\s+\1\b/i`: some maximal word run is
followed by pure whitespace and then a case-insensitively identical word run
ending at a word boundary. -/
def duplicateWordsTest (s : String) : Bool := dupRunsAux (charRuns s.toList)

/-- The function `validateDescription` from `validators.js`. -/
def validateDescription (value : String) : VResult :=
  if value = "" || jsTrim value = "" then ⟨false, "Description is required"⟩
  else if !descriptionPatternTest value then
    ⟨false, "Description cannot have leading/trailing spaces or double spaces"⟩
  else if duplicateWordsTest value then ⟨false, "Description contains duplicate words"⟩
  else if value.length < 3 then ⟨false, "Description must be at least 3 characters long"⟩
  else if value.length > 100 then ⟨false, "Description must be less than 100 characters"⟩
  else ⟨true, ""⟩

/-- Models `patterns.amount = /^(0|[1-9]\d*)(\.\d{1,2})?$/`. -/
def amountPatternTest (s : String) : Bool :=
  let l := s.toList
  let ds := l.takeWhile Char.isDigit
  let rest := l.dropWhile Char.isDigit
  (decide (ds ≠ []) && (ds = ['0'] || ds.head? ≠ some '0')) &&
  (match rest with
   | [] => true
   | '.' :: fs => decide (fs ≠ []) && fs.length ≤ 2 && fs.all Char.isDigit
   | _ => false)

def digitsToNat (l : List Char) : Nat :=
  l.foldl (fun n c => n * 10 + (c.toNat - '0'.toNat)) 0

/-- Models `parseFloat` on strings of the amount shape (exact, as a rational):
integer part plus fractional digits over the matching power of ten. -/
def parseAmountQ (s : String) : ℚ :=
  let l := s.toList
  let ds := l.takeWhile Char.isDigit
  let rest := l.dropWhile Char.isDigit
  let fs := match rest with
            | '.' :: fs => fs.takeWhile Char.isDigit
            | _ => []
  mkRat (digitsToNat ds * 10 ^ fs.length + digitsToNat fs) (10 ^ fs.length)

/-- The function `validateAmount` from `validators.js`. -/
def validateAmount (value : String) : VResult :=
  if value = "" || jsTrim value = "" then ⟨false, "Amount is required"⟩
  else if !amountPatternTest value then
    ⟨false, "Amount must be a valid number with up to 2 decimal places"⟩
  else if parseAmountQ value ≤ 0 then ⟨false, "Amount must be greater than 0"⟩
  else if mkRat 99999999 100 < parseAmountQ value then
    -- the source cap literal `999999.99`
    ⟨false, "Amount must be less than 1,000,000"⟩
  else ⟨true, ""⟩

/-- Models `patterns.date = /^\d{4}-(0[1-9]|1[0-2])-(0[1-9]|[12]\d|3[01])$/`. -/
def datePatternTest (s : String) : Bool :=
  match s.toList with
  | [y1, y2, y3, y4, '-', m1, m2, '-', d1, d2] =>
      y1.isDigit && y2.isDigit && y3.isDigit && y4.isDigit &&
      ((m1 = '0' && '1' ≤ m2 && m2 ≤ '9') || (m1 = '1' && '0' ≤ m2 && m2 ≤ '2')) &&
      ((d1 = '0' && '1' ≤ d2 && d2 ≤ '9') || ((d1 = '1' || d1 = '2') && d2.isDigit) ||
       (d1 = '3' && (d2 = '0' || d2 = '1')))
  | _ => false

def isLeapYear (y : Nat) : Bool := y % 4 = 0 && (y % 100 ≠ 0 || y % 400 = 0)

def daysInMonth (y m : Nat) : Nat :=
  if m = 2 then (if isLeapYear y then 29 else 28)
  else if m = 4 || m = 6 || m = 9 || m = 11 then 30
  else 31

/-- Day number (days since 1970-01-01) of a proleptic Gregorian date
(standard civil-from-days computation, designed for truncating division). -/
def daysFromCivil (y : Int) (m d : Nat) : Int :=
  let y' : Int := if m ≤ 2 then y - 1 else y
  let era : Int := (if 0 ≤ y' then y' else y' - 399) / 400
  let yoe : Int := y' - era * 400
  let mp : Nat := (m + 9) % 12
  let doy : Int := ((153 * mp + 2) / 5 : Nat) + (d : Int) - 1
  let doe : Int := yoe * 365 + yoe / 4 - yoe / 100 + doy
  era * 146097 + doe - 719468

/-- Models the platform `new Date(string)` for this app's date strings: for a
strict `YYYY-MM-DD` string that is a real calendar date it is the UTC-midnight
epoch day; otherwise the platform yields `Invalid Date`, modelled as `none`
(the app stores only shape-valid dates). -/
def parseDateISO (s : String) : Option Int :=
  if datePatternTest s then
    match s.toList with
    | [y1, y2, y3, y4, _, m1, m2, _, d1, d2] =>
        let y := digitsToNat [y1, y2, y3, y4]
        let m := digitsToNat [m1, m2]
        let d := digitsToNat [d1, d2]
        if 1 ≤ d ∧ d ≤ daysInMonth y m then some (daysFromCivil (y : Int) m d) else none
    | _ => none
  else none

/-- The ambient clock and timezone: local calendar day number of "now",
milliseconds since local midnight, and `getTimezoneOffset()` in minutes
(positive west of UTC, e.g. `-60` for UTC+1). -/
structure TimeEnv where
  todayDays : Int
  timeOfDayMs : Int
  tzOffsetMin : Int

/-- Epoch milliseconds of `new Date()`. -/
def nowEpochMs (env : TimeEnv) : Int :=
  env.todayDays * 86400000 + env.timeOfDayMs + env.tzOffsetMin * 60000

/-- Epoch milliseconds of `new Date()` after `setHours(0,0,0,0)`: local
midnight of the current day. -/
def todayMidnightEpochMs (env : TimeEnv) : Int :=
  env.todayDays * 86400000 + env.tzOffsetMin * 60000

/-- The function `validateDate` from `validators.js`.  A shape-matching string parses to UTC
midnight of its calendar date, compared against local midnight of today. -/
def validateDate (env : TimeEnv) (value : String) : VResult :=
  if value = "" || jsTrim value = "" then ⟨false, "Date is required"⟩
  else if !datePatternTest value then ⟨false, "Date must be in YYYY-MM-DD format"⟩
  else
    match parseDateISO value with
    | none => ⟨false, "Invalid date"⟩
    | some p =>
      if todayMidnightEpochMs env < p * 86400000 then ⟨false, "Date cannot be in the future"⟩
      else ⟨true, ""⟩

/-- A JSON scalar as it can appear in an imported record's field. -/
inductive JVal where
  | jstr (s : String)
  | jnum (q : ℚ)
  | jbool (b : Bool)
  | jnull
deriving DecidableEq

/-- A loosely-typed imported record; `none` marks an absent field
(`undefined` in JS). -/
structure RawRecord where
  id : Option JVal := none
  description : Option JVal := none
  amount : Option JVal := none
  category : Option JVal := none
  date : Option JVal := none
  createdAt : Option JVal := none
  updatedAt : Option JVal := none
deriving DecidableEq

/-- JS truthiness of a field lookup (absent ⇒ `undefined` ⇒ falsy). -/
def truthy : Option JVal → Bool
  | none => false
  | some (.jstr s) => s ≠ ""
  | some (.jnum q) => q ≠ 0
  | some (.jbool b) => b
  | some .jnull => false

def isStringVal : Option JVal → Bool
  | some (.jstr _) => true
  | _ => false

def isNumberVal : Option JVal → Bool
  | some (.jnum _) => true
  | _ => false

def numVal : Option JVal → ℚ
  | some (.jnum q) => q
  | _ => 0

def natDigitsAux : Nat → Nat → List Char
  | 0, _ => []
  | _ + 1, 0 => []
  | fuel + 1, n => natDigitsAux fuel (n / 10) ++ [Char.ofNat ('0'.toNat + n % 10)]

def natToDigits (n : Nat) : List Char := if n = 0 then ['0'] else natDigitsAux (n + 1) n

/-- The host number-to-string coercion, exact for finite-decimal rationals
(the only numbers JSON data can contain); other rationals fall back to a
fraction rendering. -/
def numToString (q : ℚ) : String :=
  let sign := if q < 0 then "-" else ""
  let n := q.num.natAbs
  let d := q.den
  match (List.range 21).find? (fun k => decide (d ∣ 10 ^ k)) with
  | some 0 => sign ++ String.mk (natToDigits n)
  | some k =>
      let scaled := n * (10 ^ k / d)
      let ds := natToDigits scaled
      let padded := List.replicate (k + 1 - ds.length) '0' ++ ds
      let ip := padded.take (padded.length - k)
      let fp := padded.drop (padded.length - k)
      sign ++ String.mk ip ++ "." ++ String.mk fp
  | none => sign ++ String.mk (natToDigits n) ++ "/" ++ String.mk (natToDigits d)

/-- The host `ToString` coercion applied by `RegExp.test` to non-strings. -/
def jvalToString : JVal → String
  | .jstr s => s
  | .jnum q => numToString q
  | .jbool b => if b then "true" else "false"
  | .jnull => "null"

/-- One record's checks from `validateImportData`, in source order; `some msg`
is the first failing check's message (without the position prefix). -/
def checkImportRecord (record : RawRecord) : Option String :=
  if !truthy record.id || !isStringVal record.id then some "Invalid or missing id"
  else if !truthy record.description || !isStringVal record.description then
    some "Invalid or missing description"
  else if !isNumberVal record.amount || numVal record.amount ≤ 0 then
    some "Invalid or missing amount"
  else if !truthy record.category || !isStringVal record.category then
    some "Invalid or missing category"
  else if !truthy record.date || !datePatternTest (jvalToString (record.date.getD .jnull)) then
    some "Invalid or missing date"
  else if !truthy record.createdAt || !truthy record.updatedAt then some "Missing timestamps"
  else none

def validateImportAux : List RawRecord → Nat → VResult
  | [], _ => ⟨true, "Data is valid"⟩
  | record :: rest, i =>
    match checkImportRecord record with
    | some msg => ⟨false, "Record " ++ toString (i + 1) ++ ": " ++ msg⟩
    | none => validateImportAux rest (i + 1)

/-- The function `validateImportData` from `validators.js`; the model's input is a list, so
the `Array.isArray` guard cannot fire. -/
def validateImportData (data : List RawRecord) : VResult := validateImportAux data 0

/-!
### The search module (`search.js`) and its platform regex engine

`compileRegex`, `highlight` and `searchTransactions` delegate pattern
compilation and matching to the host's ECMAScript regex engine.  The model
below covers the web (Annex B) pattern grammar: literals, `.`, escapes,
character classes, groups, lookarounds, alternation and quantifiers.
`newRegExp` returns `none` exactly where the platform throws `SyntaxError`.
-/

inductive ClsItem where
  | one (c : Char)
  | rng (lo hi : Char)
  | dcls | ndcls | wcls | nwcls | scls | nscls
deriving DecidableEq

inductive RNode where
  | rempty
  | rchar (c : Char)
  | rdot
  | rcls (neg : Bool) (items : List ClsItem)
  | rcat (a b : RNode)
  | ralt (a b : RNode)
  | rquant (mn : Nat) (mx : Option Nat) (greedy : Bool) (a : RNode)
  | rlook (behind neg : Bool) (a : RNode)
  | rstart
  | rend
  | rwordb (neg : Bool)
  | rbackref (n : Nat)
deriving DecidableEq

/-- Decodes one escaped character inside a character class. -/
def classEscChar (c : Char) : ClsItem :=
  if c = 'd' then .dcls else if c = 'D' then .ndcls
  else if c = 'w' then .wcls else if c = 'W' then .nwcls
  else if c = 's' then .scls else if c = 'S' then .nscls
  else if c = 'n' then .one '\n' else if c = 't' then .one '\t'
  else if c = 'r' then .one '\r' else if c = 'f' then .one '\x0c'
  else if c = 'v' then .one '\x0b' else if c = 'b' then .one '\x08'
  else if c = '0' then .one '\x00'
  else .one c

/-- Scans a character-class body up to the closing `]`; items are tagged
`true` when they are plain (unescaped) single characters. -/
def parseClassBody : Nat → List Char → Option (List (Bool × ClsItem) × List Char)
  | 0, _ => none
  | _ + 1, [] => none
  | _ + 1, ']' :: rest => some ([], rest)
  | fuel + 1, '\\' :: more =>
    match more with
    | [] => none
    | c :: rest => do
        let (its, r) ← parseClassBody fuel rest
        return ((false, classEscChar c) :: its, r)
  | fuel + 1, c :: rest => do
      let (its, r) ← parseClassBody fuel rest
      return ((true, .one c) :: its, r)

/-- Rebuilds `a-b` ranges from plain characters, rejecting out-of-order
ranges such as `[z-a]` as the platform does. -/
def buildClassItems : List (Bool × ClsItem) → Option (List ClsItem)
  | (true, .one a) :: (true, .one '-') :: (true, .one b) :: rest =>
      if a ≤ b then (buildClassItems rest).map (.rng a b :: ·) else none
  | x :: rest => (buildClassItems rest).map (x.2 :: ·)
  | [] => some []

inductive QRes where
  | noQ
  | qOk (mn : Nat) (mx : Option Nat) (rest : List Char)
  | qBad

/-- Classifies the text after a `{`: a braced quantifier (`{m}`, `{m,}`,
`{m,n}`), a malformed one (`{m,n}` with `n < m`), or no quantifier at all
(in which case the brace is a literal under Annex B). -/
def parseBracedQuant (s : List Char) : QRes :=
  let d1 := s.takeWhile Char.isDigit
  let r1 := s.dropWhile Char.isDigit
  if d1 = [] then .noQ
  else
    match r1 with
    | '}' :: rest => .qOk (digitsToNat d1) (some (digitsToNat d1)) rest
    | ',' :: r2 =>
      (match r2 with
       | '}' :: rest => .qOk (digitsToNat d1) none rest
       | _ =>
         let d2 := r2.takeWhile Char.isDigit
         let r3 := r2.dropWhile Char.isDigit
         if d2 = [] then .noQ
         else
           match r3 with
           | '}' :: rest =>
               if digitsToNat d2 < digitsToNat d1 then .qBad
               else .qOk (digitsToNat d1) (some (digitsToNat d2)) rest
           | _ => .noQ)
    | _ => .noQ

/-- An atom-position escape `\c` outside a class. -/
def escAtom (c : Char) : RNode :=
  if c = 'd' then .rcls false [.dcls] else if c = 'D' then .rcls false [.ndcls]
  else if c = 'w' then .rcls false [.wcls] else if c = 'W' then .rcls false [.nwcls]
  else if c = 's' then .rcls false [.scls] else if c = 'S' then .rcls false [.nscls]
  else if c.isDigit && c ≠ '0' then .rbackref (c.toNat - '0'.toNat)
  else if c = '0' then .rchar '\x00'
  else if c = 'n' then .rchar '\n' else if c = 't' then .rchar '\t'
  else if c = 'r' then .rchar '\r' else if c = 'f' then .rchar '\x0c'
  else if c = 'v' then .rchar '\x0b'
  else .rchar c

/-- Does a quantifier start here (so that a preceding plain assertion would be
"nothing to repeat")? -/
def quantStarts (s : List Char) : Bool :=
  match s with
  | '*' :: _ => true
  | '+' :: _ => true
  | '?' :: _ => true
  | '{' :: r => (match parseBracedQuant r with | .noQ => false | _ => true)
  | _ => false

def finishQuant (mn : Nat) (mx : Option Nat) (a : RNode) (rest : List Char) :
    RNode × List Char :=
  match rest with
  | '?' :: r2 => (.rquant mn mx false a, r2)
  | _ => (.rquant mn mx true a, rest)

def parseQuantSuffix (a : RNode) (r : List Char) : Option (RNode × List Char) :=
  match r with
  | '*' :: rest => some (finishQuant 0 none a rest)
  | '+' :: rest => some (finishQuant 1 none a rest)
  | '?' :: rest => some (finishQuant 0 (some 1) a rest)
  | '{' :: r2 =>
    (match parseBracedQuant r2 with
     | .qOk mn mx rest => some (finishQuant mn mx a rest)
     | .qBad => none
     | .noQ => some (a, r))
  | _ => some (a, r)

mutual

/-- One alternative: a possibly empty sequence of terms. -/
def parseSeq (fuel : Nat) (s : List Char) : Option (RNode × List Char) :=
  match fuel with
  | 0 => none
  | f + 1 =>
    match s with
    | [] => some (.rempty, [])
    | '|' :: _ => some (.rempty, s)
    | ')' :: _ => some (.rempty, s)
    | _ => do
      let (t, r) ← parseTerm f s
      let (rest, r2) ← parseSeq f r
      return (.rcat t rest, r2)

def parseTerm (fuel : Nat) (s : List Char) : Option (RNode × List Char) :=
  match fuel with
  | 0 => none
  | f + 1 =>
    match s with
    | '^' :: rest => if quantStarts rest then none else some (.rstart, rest)
    | '$' :: rest => if quantStarts rest then none else some (.rend, rest)
    | '\\' :: 'b' :: rest => if quantStarts rest then none else some (.rwordb false, rest)
    | '\\' :: 'B' :: rest => if quantStarts rest then none else some (.rwordb true, rest)
    | _ => do
      let (a, r) ← parseAtom f s
      parseQuantSuffix a r

def parseAtom (fuel : Nat) (s : List Char) : Option (RNode × List Char) :=
  match fuel with
  | 0 => none
  | f + 1 =>
    match s with
    | [] => none
    | '(' :: '?' :: ':' :: rest => do
        let (n, r) ← parseDisj f rest
        (match r with | ')' :: r2 => some (n, r2) | _ => none)
    | '(' :: '?' :: '=' :: rest => do
        let (n, r) ← parseDisj f rest
        (match r with | ')' :: r2 => some (.rlook false false n, r2) | _ => none)
    | '(' :: '?' :: '!' :: rest => do
        let (n, r) ← parseDisj f rest
        (match r with | ')' :: r2 => some (.rlook false true n, r2) | _ => none)
    | '(' :: '?' :: '<' :: '=' :: rest => do
        let (n, r) ← parseDisj f rest
        (match r with | ')' :: r2 => some (.rlook true false n, r2) | _ => none)
    | '(' :: '?' :: '<' :: '!' :: rest => do
        let (n, r) ← parseDisj f rest
        (match r with | ')' :: r2 => some (.rlook true true n, r2) | _ => none)
    | '(' :: '?' :: '<' :: rest =>
        let nm := rest.takeWhile isWordChar
        (match rest.dropWhile isWordChar with
         | '>' :: r1 =>
           if nm = [] then none
           else do
             let (n, r) ← parseDisj f r1
             (match r with | ')' :: r2 => some (n, r2) | _ => none)
         | _ => none)
    | '(' :: '?' :: _ => none
    | '(' :: rest => do
        let (n, r) ← parseDisj f rest
        (match r with | ')' :: r2 => some (n, r2) | _ => none)
    | '[' :: '^' :: rest => do
        let (its, r) ← parseClassBody (rest.length + 1) rest
        let items ← buildClassItems its
        return (.rcls true items, r)
    | '[' :: rest => do
        let (its, r) ← parseClassBody (rest.length + 1) rest
        let items ← buildClassItems its
        return (.rcls false items, r)
    | '\\' :: c :: rest => some (escAtom c, rest)
    | '\\' :: [] => none
    | '.' :: rest => some (.rdot, rest)
    | '{' :: rest =>
        (match parseBracedQuant rest with
         | .noQ => some (.rchar '{', rest)
         | _ => none)
    | '*' :: _ => none
    | '+' :: _ => none
    | '?' :: _ => none
    | ')' :: _ => none
    | '|' :: _ => none
    | c :: rest => some (.rchar c, rest)

def parseDisj (fuel : Nat) (s : List Char) : Option (RNode × List Char) :=
  match fuel with
  | 0 => none
  | f + 1 => do
    let (a, r) ← parseSeq f s
    (match r with
     | '|' :: rest => do
         let (b, r2) ← parseDisj f rest
         return (RNode.ralt a b, r2)
     | _ => return (a, r))

end

/-- A compiled pattern: syntax tree plus the two flags the app uses. -/
structure RegExpV where
  node : RNode
  ignoreCase : Bool
  global : Bool
deriving DecidableEq

def validFlags (flags : String) : Bool :=
  flags.toList.all (fun c => c ∈ ['d', 'g', 'i', 'm', 's', 'u', 'v', 'y']) &&
  decide flags.toList.Nodup &&
  !(flags.toList.contains 'u' && flags.toList.contains 'v')

/-- Models `new RegExp(pattern, flags)`; `none` models a thrown `SyntaxError`. -/
def newRegExp (pattern flags : String) : Option RegExpV :=
  if !validFlags flags then none
  else
    match parseDisj (4 * pattern.length + 16) pattern.toList with
    | some (n, []) => some ⟨n, flags.toList.contains 'i', flags.toList.contains 'g'⟩
    | _ => none

/-- The function `compileRegex` from `search.js`:
`try { return input ? new RegExp(input, flags) : null } catch { return null }`. -/
def compileRegex (input : String) (flags : String := "i") : Option RegExpV :=
  if input = "" then none else newRegExp input flags

def ciEq (ic : Bool) (a b : Char) : Bool :=
  if ic then a.toLower = b.toLower else a = b

def clsItemMatch (ic : Bool) (c : Char) : ClsItem → Bool
  | .one d => ciEq ic c d
  | .rng lo hi =>
      (lo ≤ c && c ≤ hi) ||
      (ic && ((lo ≤ c.toLower && c.toLower ≤ hi) || (lo ≤ c.toUpper && c.toUpper ≤ hi)))
  | .dcls => c.isDigit
  | .ndcls => !c.isDigit
  | .wcls => isWordChar c
  | .nwcls => !isWordChar c
  | .scls => jsWhitespaceChar c
  | .nscls => !jsWhitespaceChar c

def clsMatch (ic : Bool) (neg : Bool) (items : List ClsItem) (c : Char) : Bool :=
  items.any (clsItemMatch ic c) != neg

def wordAt (s : List Char) (i : Nat) : Bool :=
  match s.get? i with
  | some c => isWordChar c
  | none => false

def atWordBoundary (s : List Char) (i : Nat) : Bool :=
  (if i = 0 then false else wordAt s (i - 1)) != wordAt s i

/-- Backtracking matcher in continuation-passing style: tries to match `n` at
position `i`, passing the end position to `k`; returns the first success in
backtracking order (greedy before lazy alternatives), which is the
ECMAScript match.  `rbackref` is modelled conservatively as failing; no
pattern this development evaluates contains one. -/
def mtch (fuel : Nat) (ic : Bool) (s : List Char) (n : RNode) (i : Nat)
    (k : Nat → Option Nat) : Option Nat :=
  match fuel with
  | 0 => none
  | f + 1 =>
    match n with
    | .rempty => k i
    | .rchar c =>
      (match s.get? i with
       | some d => if ciEq ic d c then k (i + 1) else none
       | none => none)
    | .rdot =>
      (match s.get? i with
       | some d => if isLineTermChar d then none else k (i + 1)
       | none => none)
    | .rcls neg items =>
      (match s.get? i with
       | some d => if clsMatch ic neg items d then k (i + 1) else none
       | none => none)
    | .rcat a b => mtch f ic s a i (fun j => mtch f ic s b j k)
    | .ralt a b => (mtch f ic s a i k) <|> (mtch f ic s b i k)
    | .rquant mn mx greedy a =>
      if mn ≠ 0 then
        mtch f ic s a i (fun j => mtch f ic s (.rquant (mn - 1) (mx.map (· - 1)) greedy a) j k)
      else
        (match mx with
         | some 0 => k i
         | _ =>
           let step := fun (j : Nat) =>
             if j = i then none
             else mtch f ic s (.rquant 0 (mx.map (· - 1)) greedy a) j k
           if greedy then (mtch f ic s a i step) <|> k i
           else (k i) <|> (mtch f ic s a i step))
    | .rlook behind neg a =>
      let ok :=
        if behind then
          (List.range (i + 1)).any (fun j =>
            (mtch f ic s a j (fun e => if e = i then some e else none)).isSome)
        else (mtch f ic s a i some).isSome
      if ok != neg then k i else none
    | .rstart => if i = 0 then k i else none
    | .rend => if i = s.length then k i else none
    | .rwordb neg => if atWordBoundary s i != neg then k i else none
    | .rbackref _ => none

def rnodeFuel : RNode → Nat
  | .rcat a b => rnodeFuel a + rnodeFuel b + 1
  | .ralt a b => rnodeFuel a + rnodeFuel b + 1
  | .rquant mn mx _ a =>
      (rnodeFuel a + 1) * (mn + (match mx with | some m => m | none => 0) + 2)
  | .rlook _ _ a => rnodeFuel a + 1
  | _ => 1

def matchFuel (n : RNode) (s : List Char) : Nat := (rnodeFuel n + 4) * (s.length + 4) + 64

/-- Leftmost match: the earliest start position admitting a match wins;
returns (start, end). -/
def execRegExp (r : RegExpV) (s : List Char) (start : Nat) : Option (Nat × Nat) :=
  ((List.range (s.length + 1 - start)).map (· + start)).findSome?
    (fun p => (mtch (matchFuel r.node s) r.ignoreCase s r.node p some).map (fun e => (p, e)))

/-- Models `RegExp.prototype.test` on a fresh (or `lastIndex`-reset) regex. -/
def testRegExp (r : RegExpV) (text : String) : Bool :=
  (execRegExp r text.toList 0).isSome

def sliceStr (s : List Char) (a b : Nat) : String := String.mk ((s.drop a).take (b - a))

def replaceAllAux (fuel : Nat) (r : RegExpV) (s : List Char) (copyFrom scanFrom : Nat)
    (f : String → String) : String :=
  match fuel with
  | 0 => String.mk (s.drop copyFrom)
  | fl + 1 =>
    match execRegExp r s scanFrom with
    | none => String.mk (s.drop copyFrom)
    | some (a, b) =>
      sliceStr s copyFrom a ++ f (sliceStr s a b) ++
      replaceAllAux fl r s b (if b = a then b + 1 else b) f

/-- Models `String.prototype.replace(regex, f)`: first match only without the `g`
flag, every non-overlapping match with it. -/
def replaceRegExp (r : RegExpV) (text : String) (f : String → String) : String :=
  let s := text.toList
  if r.global then replaceAllAux (s.length + 1) r s 0 0 f
  else
    match execRegExp r s 0 with
    | none => text
    | some (a, b) => sliceStr s 0 a ++ f (sliceStr s a b) ++ String.mk (s.drop b)

/-- The function `escapeHtml` from `search.js` (`div.textContent = text; div.innerHTML`):
HTML text-node serialization escapes `&`, `<` and `>`. -/
def escapeHtmlChar (c : Char) : String :=
  if c = '&' then "&amp;" else if c = '<' then "&lt;" else if c = '>' then "&gt;"
  else String.singleton c

def escapeHtml (text : String) : String :=
  if text = "" then "" else String.join (text.toList.map escapeHtmlChar)

/-- The function `highlight` from `search.js`.  The source computes
`escapedText = escapeHtml(text)` first, but the match branch performs the
replacement on the original unescaped `text`. -/
def highlight (text : String) (regex : Option RegExpV) : String :=
  match regex with
  | none => escapeHtml text
  | some r =>
    if text = "" then escapeHtml text
    else if !testRegExp r text then escapeHtml text
    else replaceRegExp r text (fun m => "<mark>" ++ escapeHtml m ++ "</mark>")

/-- A transaction record (data model of `state.js`). -/
structure Transaction where
  id : String
  description : String
  amount : ℚ
  category : String
  date : String
  createdAt : String
  updatedAt : String
deriving DecidableEq

/-- The function `searchTransactions` from `search.js` (matching the concatenation of
description, category and stringified amount). -/
def searchTransactions (transactions : List Transaction) (regex : Option RegExpV) :
    List Transaction :=
  match regex with
  | none => transactions
  | some r =>
    transactions.filter (fun t =>
      testRegExp r (t.description ++ " " ++ t.category ++ " " ++ numToString t.amount))

/-!
### The record store (`state.js`): sorted views and statistics

`getSortedTransactions` uses the language-default stable sort with a
field-dependent comparator; the stable sort is modelled by
`List.insertionSort` (any two stable sorts of the same comparator agree).
`calculateStats` derives the dashboard statistics.
-/

inductive SortField where
  | fid | fdescription | famount | fcategory | fdate | fcreatedAt | fupdatedAt
deriving DecidableEq

def toLowerStr (s : String) : String := s.map Char.toLower

/-- A comparator key: `parseFloat` of the amount, the `Date` value of the date
(`none` is `NaN`, an invalid date), lowercased text otherwise. -/
inductive SKey where
  | kq (q : ℚ)
  | kd (d : Option Int)
  | ks (s : String)
deriving DecidableEq

def sortKey (f : SortField) (t : Transaction) : SKey :=
  match f with
  | .famount => .kq t.amount
  | .fdate => .kd (parseDateISO t.date)
  | .fid => .ks (toLowerStr t.id)
  | .fdescription => .ks (toLowerStr t.description)
  | .fcategory => .ks (toLowerStr t.category)
  | .fcreatedAt => .ks (toLowerStr t.createdAt)
  | .fupdatedAt => .ks (toLowerStr t.updatedAt)

/-- The `aVal < bVal` test of the comparator; any comparison against `NaN` is false. -/
def skLt : SKey → SKey → Bool
  | .kq a, .kq b => a < b
  | .kd (some a), .kd (some b) => a < b
  | .kd _, .kd _ => false
  | .ks a, .ks b => a < b
  | .kq _, _ => false
  | .kd _, _ => false
  | .ks _, _ => false

/-- The comparator of `getSortedTransactions` as an integer result. -/
def cmpTx (f : SortField) (ascending : Bool) (a b : Transaction) : Int :=
  let x := sortKey f a
  let y := sortKey f b
  if skLt x y then (if ascending then -1 else 1)
  else if skLt y x then (if ascending then 1 else -1)
  else 0

/-- The function `getSortedTransactions` from `state.js`: a freshly sorted copy under the
active `{field, ascending}`. -/
def getSortedTransactions (transactions : List Transaction) (f : SortField)
    (ascending : Bool) : List Transaction :=
  List.insertionSort (fun a b => cmpTx f ascending a b ≤ 0) transactions

/-- Models `categoryTotals[t.category] = (categoryTotals[t.category] || 0) + t.amount`
on an insertion-ordered key-value list. -/
def upsertCat : List (String × ℚ) → String → ℚ → List (String × ℚ)
  | [], c, a => [(c, a)]
  | (c', a') :: rest, c, a =>
    if c' = c then (c', a' + a) :: rest else (c', a') :: upsertCat rest c a

def categoryTotalsOf (transactions : List Transaction) : List (String × ℚ) :=
  transactions.foldl (fun acc t => upsertCat acc t.category t.amount) []

/-- The top-category scan: start from `('-', 0)` and take any strictly larger
total. -/
def topCatFold (entries : List (String × ℚ)) (init : String × ℚ) : String × ℚ :=
  entries.foldl (fun p q => if p.2 < q.2 then q else p) init

def sumAmounts (transactions : List Transaction) : ℚ :=
  transactions.foldl (fun s t => s + t.amount) 0

/-- The `last 7 days` filter: `new Date(t.date) >= sevenDaysAgo`, where
`sevenDaysAgo` is now minus 7 days and an unparseable date (`NaN`) never
passes. -/
def inLast7Days (env : TimeEnv) (t : Transaction) : Bool :=
  match parseDateISO t.date with
  | some p => decide (nowEpochMs env - 7 * 86400000 ≤ p * 86400000)
  | none => false

structure CatEntry where
  category : String
  amount : ℚ
  percentage : ℚ
deriving DecidableEq

structure Stats where
  total : Nat
  totalSpent : ℚ
  topCategory : String
  last7Days : ℚ
  categoryBreakdown : List CatEntry
deriving DecidableEq

/-- The function `calculateStats` from `state.js`. -/
def calculateStats (env : TimeEnv) (transactions : List Transaction) : Stats :=
  let totalSpent := sumAmounts transactions
  let categoryTotals := categoryTotalsOf transactions
  let top := topCatFold categoryTotals ("-", 0)
  let last7 := sumAmounts (transactions.filter (inLast7Days env))
  let breakdown :=
    List.insertionSort (fun x y : CatEntry => y.amount - x.amount ≤ 0)
      (categoryTotals.map (fun p =>
        CatEntry.mk p.1 p.2 (if 0 < totalSpent then p.2 / totalSpent * 100 else 0)))
  { total := transactions.length
    totalSpent := totalSpent
    topCategory := top.1
    last7Days := last7
    categoryBreakdown := breakdown }

/-- Spec-side reading of the top-category rule: the maximum category total. -/
def maxCatTotal (entries : List (String × ℚ)) : ℚ :=
  entries.foldl (fun m p => max m p.2) 0

/-- Spec-side reading of the tie-break: the first entry of the accumulation
order whose total equals the maximum (`'-'` for an empty breakdown). -/
def firstMaxCategory (entries : List (String × ℚ)) : String :=
  match entries.find? (fun p => p.2 == maxCatTotal entries) with
  | some p => p.1
  | none => "-"

/-!
### Theorems for the claims
-/

/-- C1 (code bug): `highlight("<script>", /script/i)` leaves the unmatched
`<` and `>` of the source unescaped in the output.  The source computes
`escapedText = escapeHtml(text)` ("Escape HTML first to prevent XSS") but the
match branch replaces on the original `text`, producing `<<mark>script</mark>>`
instead of the fully escaped `&lt;<mark>script</mark>&gt;`. -/
theorem C1_highlight_leaves_source_unescaped :
    highlight "<script>" (compileRegex "script" "i") = "<<mark>script</mark>>" ∧
    escapeHtml "<" ++ "<mark>" ++ escapeHtml "script" ++ "</mark>" ++ escapeHtml ">" =
      "&lt;<mark>script</mark>&gt;" := by
  constructor <;> rfl

/-- C2: a syntactically malformed pattern makes `compileRegex` return the
explicit no-pattern result instead of propagating the platform fault, and
`searchTransactions` with that failed compilation is the identity filter. -/
theorem C2_malformed_pattern_no_filter (pattern flags : String)
    (transactions : List Transaction) (h : newRegExp pattern flags = none) :
    compileRegex pattern flags = none ∧
    searchTransactions transactions (compileRegex pattern flags) = transactions := by
  have hc : compileRegex pattern flags = none := by
    unfold compileRegex
    by_cases he : pattern = "" <;> simp [he, h]
  exact ⟨hc, by rw [hc]; rfl⟩

/-- C2 witness: the unbalanced group `"("` is malformed. -/
theorem C2_malformed_pattern_no_filter_witness :
    compileRegex "(" "i" = none ∧
    searchTransactions [] (compileRegex "(" "i") = [] :=
  C2_malformed_pattern_no_filter "(" "i" [] (by decide)

/-- C3 (code bug): a non-blank description with an internal double space is
accepted: `validateDescription "ab  cd"` returns `valid := true`, because
`/^\S(?:.*\S)?$/` constrains only the first and last characters and never
rejects internal double spaces (contradicting the pattern's own comment and
the validator's error message). -/
theorem C3_internal_double_space_accepted :
    validateDescription "ab  cd" = ⟨true, ""⟩ ∧ jsTrim "ab  cd" ≠ "" := by
  constructor
  · rfl
  · decide

/-- C6: `validateAmount` accepts "12.5" and "12.50", and rejects "12.505"
(more than 2 fractional digits), "0" (not strictly positive) and "1000000"
(beyond the 999999.99 cap). -/
theorem C6_validateAmount_examples :
    (validateAmount "12.5").valid = true ∧
    (validateAmount "12.50").valid = true ∧
    (validateAmount "12.505").valid = false ∧
    (validateAmount "0").valid = false ∧
    (validateAmount "1000000").valid = false := by
  refine ⟨?_, ?_, ?_, ?_, ?_⟩ <;> decide

/-- C10: the empty pattern string compiles to the no-pattern result (`input ?
new RegExp(...) : null` takes the falsy branch), so search with it returns
the full record list unchanged. -/
theorem C10_empty_pattern_identity (flags : String) (transactions : List Transaction) :
    compileRegex "" flags = none ∧
    searchTransactions transactions (compileRegex "" flags) = transactions := by
  constructor <;> rfl

/-- An element failing `p` survives `dropWhile p`. -/
theorem mem_dropWhile_of_mem {α : Type _} (p : α → Bool) {l : List α} {x : α}
    (hx : x ∈ l) (hpx : p x = false) : x ∈ l.dropWhile p := by
  induction l with
  | nil => cases hx
  | cons c rest ih =>
    rw [List.dropWhile_cons]
    by_cases hc : p c = true
    · simp only [hc, if_true]
      rcases List.mem_cons.mp hx with rfl | hxr
      · rw [hpx] at hc; cases hc
      · exact ih hxr
    · simp only [Bool.not_eq_true] at hc
      simp only [hc, Bool.false_eq_true, if_false]
      exact hx

/-- A shape-valid date string is neither empty nor blank (it contains `-`). -/
theorem datePattern_not_blank (value : String) (h : datePatternTest value = true) :
    value ≠ "" ∧ jsTrim value ≠ "" := by
  unfold datePatternTest at h
  split at h
  next y1 y2 y3 y4 m1 m2 d1 d2 heq =>
    have hdash : '-' ∈ value.toList := by rw [heq]; simp
    have hws : jsWhitespaceChar '-' = false := by decide
    constructor
    · intro he
      rw [he] at heq
      simp [String.toList] at heq
    · intro he
      unfold jsTrim at he
      have hnil :
          ((value.toList.dropWhile jsWhitespaceChar).reverse.dropWhile
            jsWhitespaceChar).reverse = [] := by
        have := congrArg String.data he
        simpa using this
      have h1 := mem_dropWhile_of_mem jsWhitespaceChar hdash hws
      have h2 := List.mem_reverse.mpr h1
      have h3 := mem_dropWhile_of_mem jsWhitespaceChar h2 hws
      have h4 := List.mem_reverse.mpr h3
      rw [hnil] at h4
      cases h4
  next => exact absurd h (by simp)

/-- A successful platform date parse implies the string is shape-valid. -/
theorem parseDateISO_pattern {value : String} {p : Int}
    (h : parseDateISO value = some p) : datePatternTest value = true := by
  unfold parseDateISO at h
  by_cases hd : datePatternTest value = true
  · exact hd
  · simp [hd] at h

/-- Evaluating `validateDate` on a string the platform parses reduces to the
future-date comparison. -/
theorem validateDate_parsed (env : TimeEnv) (value : String) (p : Int)
    (hp : parseDateISO value = some p) :
    validateDate env value =
      if todayMidnightEpochMs env < p * 86400000 then
        ⟨false, "Date cannot be in the future"⟩
      else ⟨true, ""⟩ := by
  have hpat := parseDateISO_pattern hp
  obtain ⟨hne, hnt⟩ := datePattern_not_blank value hpat
  unfold validateDate
  rw [if_neg (by simp [hne, hnt]), if_neg (by simp [hpat]), hp]

/-- C4 counterexample: with today = 2025-10-11 in a timezone east of UTC
(`getTimezoneOffset() = -60`, i.e. UTC+1), today's own date is rejected as
"in the future", refuting the claim's "today's date is valid": the parsed
date is UTC midnight while "today" is stripped to local midnight, which lies
one hour earlier. -/
theorem C4_today_rejected_east_of_utc :
    parseDateISO "2025-10-11" = some 20372 ∧
    validateDate ⟨20372, 0, -60⟩ "2025-10-11" =
      ⟨false, "Date cannot be in the future"⟩ := by
  constructor <;> rfl

/-- C4 (amended): a shape-matching string that is not a real calendar date is
invalid; a parsed date strictly after today is invalid; a parsed date
strictly before today is valid; today's own date is valid exactly when the
timezone offset is nonnegative (at or west of UTC) — time-of-day is stripped
only from the "today" side, while the parsed date sits at UTC midnight. -/
theorem C4_amended_validateDate (env : TimeEnv) (value : String)
    (hoff1 : -840 ≤ env.tzOffsetMin) (hoff2 : env.tzOffsetMin ≤ 720) :
    (datePatternTest value = true → parseDateISO value = none →
      validateDate env value = ⟨false, "Invalid date"⟩) ∧
    (∀ p : Int, parseDateISO value = some p →
      (env.todayDays < p →
        validateDate env value = ⟨false, "Date cannot be in the future"⟩) ∧
      (p < env.todayDays → validateDate env value = ⟨true, ""⟩) ∧
      (p = env.todayDays →
        validateDate env value =
          if 0 ≤ env.tzOffsetMin then ⟨true, ""⟩
          else ⟨false, "Date cannot be in the future"⟩)) := by
  constructor
  · intro hpat hnone
    obtain ⟨hne, hnt⟩ := datePattern_not_blank value hpat
    unfold validateDate
    rw [if_neg (by simp [hne, hnt]), if_neg (by simp [hpat]), hnone]
  · intro p hp
    rw [validateDate_parsed env value p hp]
    unfold todayMidnightEpochMs
    refine ⟨?_, ?_, ?_⟩
    · intro hlt
      rw [if_pos (by omega)]
    · intro hlt
      rw [if_neg (by omega)]
    · intro heq
      subst heq
      by_cases hz : 0 ≤ env.tzOffsetMin
      · rw [if_pos hz, if_neg (by omega)]
      · rw [if_neg hz, if_pos (by omega)]

/-- C4 witness: today = 2025-10-11 at UTC: today's date is valid and the
shape-valid non-date `2025-02-30` is invalid. -/
theorem C4_amended_validateDate_witness :
    validateDate ⟨20372, 0, 0⟩ "2025-10-11" = ⟨true, ""⟩ ∧
    validateDate ⟨20372, 0, 0⟩ "2025-02-30" = ⟨false, "Invalid date"⟩ := by
  have h := C4_amended_validateDate ⟨20372, 0, 0⟩ "2025-10-11" (by decide) (by decide)
  have h2 := C4_amended_validateDate ⟨20372, 0, 0⟩ "2025-02-30" (by decide) (by decide)
  refine ⟨?_, h2.1 (by rfl) (by rfl)⟩
  have h3 := (h.2 20372 (by rfl)).2.2 rfl
  simpa using h3

/-- The C5 counterexample record: everything the claim requires of an element
holds — in particular both timestamp fields are PRESENT — but `createdAt` is
the empty string, which is falsy. -/
def c5Record : RawRecord :=
  { id := some (.jstr "txn_1"), description := some (.jstr "Lunch"),
    amount := some (.jnum 5), category := some (.jstr "Food"),
    date := some (.jstr "2025-01-02"), createdAt := some (.jstr ""),
    updatedAt := some (.jstr "2025-01-02T12:00:00Z") }

/-- C5 counterexample: a record with non-empty string id, description and
category, positive numeric amount, shape-valid date and both timestamp
fields present is nevertheless rejected ("Record 1: Missing timestamps"),
because the code tests truthiness, not presence, of the timestamps. -/
theorem C5_present_empty_timestamp_rejected :
    truthy c5Record.id = true ∧ isStringVal c5Record.id = true ∧
    truthy c5Record.description = true ∧ isStringVal c5Record.description = true ∧
    isNumberVal c5Record.amount = true ∧ (0 : ℚ) < numVal c5Record.amount ∧
    truthy c5Record.category = true ∧ isStringVal c5Record.category = true ∧
    datePatternTest (jvalToString (c5Record.date.getD .jnull)) = true ∧
    c5Record.createdAt.isSome = true ∧ c5Record.updatedAt.isSome = true ∧
    validateImportData [c5Record] = ⟨false, "Record 1: Missing timestamps"⟩ := by
  decide

theorem validateImportAux_all_ok (data : List RawRecord) : ∀ i : Nat,
    (validateImportAux data i = ⟨true, "Data is valid"⟩ ↔
      ∀ r ∈ data, checkImportRecord r = none) := by
  induction data with
  | nil => intro i; simp [validateImportAux]
  | cons r rest ih =>
    intro i
    unfold validateImportAux
    cases hc : checkImportRecord r with
    | some msg =>
      constructor
      · intro h
        simp [VResult.mk.injEq] at h
      · intro h
        have := h r (List.mem_cons_self r rest)
        rw [hc] at this
        cases this
    | none =>
      rw [ih (i + 1)]
      constructor
      · intro h x hx
        rcases List.mem_cons.mp hx with rfl | hxr
        · exact hc
        · exact h x hxr
      · intro h x hx
        exact h x (List.mem_cons_of_mem r hx)

theorem validateImportAux_first_fail :
    ∀ (data : List RawRecord) (k i : Nat) (h : i < data.length) (msg : String),
      (∀ j : Nat, ∀ hj : j < data.length, j < i →
        checkImportRecord (data.get ⟨j, hj⟩) = none) →
      checkImportRecord (data.get ⟨i, h⟩) = some msg →
      validateImportAux data k =
        ⟨false, "Record " ++ toString (k + i + 1) ++ ": " ++ msg⟩ := by
  intro data
  induction data with
  | nil => intro k i h; simp at h
  | cons r rest ih =>
    intro k i h msg hprev hfail
    cases i with
    | zero =>
      have hr : checkImportRecord r = some msg := hfail
      unfold validateImportAux
      rw [hr]
    | succ i' =>
      have hr : checkImportRecord r = none := hprev 0 (by simp) (Nat.succ_pos i')
      unfold validateImportAux
      rw [hr]
      have h' : i' < rest.length := by simpa using h
      have hres := ih (k + 1) i' h' msg
        (fun j hj hlt => by
          have hj' : j + 1 < (r :: rest).length := by simpa using Nat.succ_lt_succ hj
          have := hprev (j + 1) hj' (Nat.succ_lt_succ hlt)
          simpa using this)
        (by simpa using hfail)
      rw [hres]
      have harith : k + 1 + i' + 1 = k + (i' + 1) + 1 := by omega
      rw [harith]

/-- C5 (amended): `validateImportData` succeeds (with the informational
message) iff every record passes all the per-record checks — with both
timestamp fields TRUTHY (present and non-falsy), not merely present — and
the first failing element is reported with its 1-based position. -/
theorem C5_amended_validateImportData (data : List RawRecord) :
    (validateImportData data = ⟨true, "Data is valid"⟩ ↔
      ∀ r ∈ data, checkImportRecord r = none) ∧
    (∀ i : Nat, ∀ h : i < data.length, ∀ msg : String,
      (∀ j : Nat, ∀ hj : j < data.length, j < i →
        checkImportRecord (data.get ⟨j, hj⟩) = none) →
      checkImportRecord (data.get ⟨i, h⟩) = some msg →
      validateImportData data =
        ⟨false, "Record " ++ toString (i + 1) ++ ": " ++ msg⟩) := by
  constructor
  · exact validateImportAux_all_ok data 0
  · intro i h msg hprev hfail
    have := validateImportAux_first_fail data 0 i h msg hprev hfail
    simpa using this

/-- A fully valid import record, for the C5 witness. -/
def c5Good : RawRecord :=
  { id := some (.jstr "txn_2"), description := some (.jstr "Bus ticket"),
    amount := some (.jnum 3), category := some (.jstr "Transport"),
    date := some (.jstr "2025-01-03"), createdAt := some (.jstr "2025-01-03T08:00:00Z"),
    updatedAt := some (.jstr "2025-01-03T08:00:00Z") }

/-- C5 witness: one passing list and one list whose second element fails. -/
theorem C5_amended_validateImportData_witness :
    validateImportData [c5Good] = ⟨true, "Data is valid"⟩ ∧
    validateImportData [c5Good, c5Record] =
      ⟨false, "Record 2: Missing timestamps"⟩ := by
  constructor
  · exact (C5_amended_validateImportData [c5Good]).1.mpr (by decide)
  · have hres := (C5_amended_validateImportData [c5Good, c5Record]).2 1 (by decide)
      "Missing timestamps"
      (fun j hj hlt => by
        have hj0 : j = 0 := by omega
        subst hj0
        show checkImportRecord c5Good = none
        decide)
      (by show checkImportRecord c5Record = some "Missing timestamps"; decide)
    have harith : ("Record " ++ toString (1 + 1) ++ ": " ++ "Missing timestamps")
        = "Record 2: Missing timestamps" := rfl
    rw [harith] at hres
    exact hres

/-- C8: for a store of exactly three transactions dated today, 3 days ago and
10 days ago, with amounts 10, 20 and 30, `last7Days` is 30: the sum of the
today and 3-days-ago amounts only. -/
theorem C8_last7days_window (env : TimeEnv) (t1 t2 t3 : Transaction)
    (htod1 : 0 ≤ env.timeOfDayMs) (htod2 : env.timeOfDayMs < 86400000)
    (hoff1 : -840 ≤ env.tzOffsetMin) (hoff2 : env.tzOffsetMin ≤ 720)
    (h1d : parseDateISO t1.date = some env.todayDays) (h1a : t1.amount = 10)
    (h2d : parseDateISO t2.date = some (env.todayDays - 3)) (h2a : t2.amount = 20)
    (h3d : parseDateISO t3.date = some (env.todayDays - 10)) (h3a : t3.amount = 30) :
    (calculateStats env [t1, t2, t3]).last7Days = 30 := by
  have e1 : inLast7Days env t1 = true := by
    simp only [inLast7Days, h1d, nowEpochMs, decide_eq_true_eq]
    omega
  have e2 : inLast7Days env t2 = true := by
    simp only [inLast7Days, h2d, nowEpochMs, decide_eq_true_eq]
    omega
  have e3 : inLast7Days env t3 = false := by
    simp only [inLast7Days, h3d, nowEpochMs, decide_eq_false_iff_not]
    omega
  have hred : (calculateStats env [t1, t2, t3]).last7Days
      = sumAmounts ([t1, t2, t3].filter (inLast7Days env)) := rfl
  rw [hred]
  simp [List.filter, e1, e2, e3, sumAmounts, h1a, h2a]
  norm_num

/-- C8 witness: today = 2025-10-11, noon, UTC; dates 2025-10-11, 2025-10-08,
2025-10-01. -/
theorem C8_last7days_window_witness :
    (calculateStats ⟨20372, 43200000, 0⟩
      [⟨"t1", "today", 10, "Food", "2025-10-11", "c1", "u1"⟩,
       ⟨"t2", "recent", 20, "Food", "2025-10-08", "c2", "u2"⟩,
       ⟨"t3", "old", 30, "Food", "2025-10-01", "c3", "u3"⟩]).last7Days = 30 :=
  C8_last7days_window ⟨20372, 43200000, 0⟩ _ _ _
    (by decide) (by decide) (by decide) (by decide)
    (by decide) (by decide) (by decide) (by decide) (by decide) (by decide)

theorem foldMax_base_le (l : List (String × ℚ)) :
    ∀ a : ℚ, a ≤ l.foldl (fun m p => max m p.2) a := by
  induction l with
  | nil => intro a; simp
  | cons p rest ih =>
    intro a
    simp only [List.foldl_cons]
    exact le_trans (le_max_left a p.2) (ih (max a p.2))

theorem foldMax_mem_le (l : List (String × ℚ)) :
    ∀ a : ℚ, ∀ q ∈ l, q.2 ≤ l.foldl (fun m p => max m p.2) a := by
  induction l with
  | nil => intro a q hq; cases hq
  | cons p rest ih =>
    intro a q hq
    simp only [List.foldl_cons]
    rcases List.mem_cons.mp hq with rfl | hqr
    · exact le_trans (le_max_right a q.2) (foldMax_base_le rest (max a q.2))
    · exact ih (max a p.2) q hqr

theorem topCatFold_cons (p : String × ℚ) (rest : List (String × ℚ)) (acc : String × ℚ) :
    topCatFold (p :: rest) acc = topCatFold rest (if acc.2 < p.2 then p else acc) := rfl

theorem topCatFold_no_greater (l : List (String × ℚ)) :
    ∀ acc : String × ℚ, (∀ q ∈ l, q.2 ≤ acc.2) → topCatFold l acc = acc := by
  induction l with
  | nil => intro acc _; rfl
  | cons p rest ih =>
    intro acc h
    have hp : p.2 ≤ acc.2 := h p (List.mem_cons_self p rest)
    rw [topCatFold_cons, if_neg (not_lt.mpr hp)]
    exact ih acc (fun q hq => h q (List.mem_cons_of_mem p hq))

/-- The strict-improvement scan returns the first entry whose total equals
the running maximum, provided the maximum beats the initial accumulator. -/
theorem topCatFold_first_max (l : List (String × ℚ)) :
    ∀ (tc : String) (ta : ℚ),
      ta < l.foldl (fun m p => max m p.2) ta →
      l.find? (fun p => p.2 == l.foldl (fun m p => max m p.2) ta) =
        some (topCatFold l (tc, ta)) := by
  induction l with
  | nil =>
    intro tc ta h
    simp at h
  | cons p rest ih =>
    intro tc ta h
    simp only [List.foldl_cons] at h ⊢
    by_cases hp : ta < p.2
    · have hmax : max ta p.2 = p.2 := max_eq_right (le_of_lt hp)
      rw [hmax] at h ⊢
      rw [topCatFold_cons]
      rw [if_pos (show ((tc, ta) : String × ℚ).2 < p.2 from hp)]
      by_cases hrest : p.2 < rest.foldl (fun m q => max m q.2) p.2
      · have hfind := ih p.1 p.2 hrest
        rw [List.find?_cons_of_neg, hfind]
        simp only [beq_iff_eq]
        exact ne_of_lt hrest
      · have heq : rest.foldl (fun m q => max m q.2) p.2 = p.2 :=
          le_antisymm (not_lt.mp hrest) (foldMax_base_le rest p.2)
        rw [heq]
        rw [List.find?_cons_of_pos _ (by simp)]
        have hall : ∀ q ∈ rest, q.2 ≤ p.2 := by
          intro q hq
          have := foldMax_mem_le rest p.2 q hq
          rwa [heq] at this
        rw [topCatFold_no_greater rest p hall]
    · have hple : p.2 ≤ ta := not_lt.mp hp
      have hmax : max ta p.2 = ta := max_eq_left hple
      rw [hmax] at h ⊢
      rw [topCatFold_cons]
      rw [if_neg (show ¬ (((tc, ta) : String × ℚ).2 < p.2) from hp)]
      rw [List.find?_cons_of_neg, ih tc ta h]
      simp only [beq_iff_eq]
      intro hcontra
      rw [hcontra] at hple
      exact absurd (lt_of_lt_of_le h hple) (lt_irrefl ta)

theorem upsertCat_pos (l : List (String × ℚ)) (c : String) (a : ℚ)
    (hl : ∀ q ∈ l, 0 < q.2) (ha : 0 < a) : ∀ q ∈ upsertCat l c a, 0 < q.2 := by
  induction l with
  | nil =>
    intro q hq
    simp only [upsertCat, List.mem_singleton] at hq
    subst hq
    exact ha
  | cons p rest ih =>
    intro q hq
    match p, hq with
    | (c', a'), hq =>
      unfold upsertCat at hq
      by_cases hc : c' = c
      · rw [if_pos hc] at hq
        rcases List.mem_cons.mp hq with h1 | hqr
        · rw [h1]
          exact add_pos (hl (c', a') (List.mem_cons_self _ _)) ha
        · exact hl q (List.mem_cons_of_mem _ hqr)
      · rw [if_neg hc] at hq
        rcases List.mem_cons.mp hq with h1 | hqr
        · rw [h1]
          exact hl (c', a') (List.mem_cons_self _ _)
        · exact ih (fun x hx => hl x (List.mem_cons_of_mem _ hx)) q hqr

theorem upsertCat_ne_nil (l : List (String × ℚ)) (c : String) (a : ℚ) :
    upsertCat l c a ≠ [] := by
  cases l with
  | nil => simp [upsertCat]
  | cons p rest =>
    match p with
    | (c', a') =>
      unfold upsertCat
      split <;> simp

theorem categoryTotals_pos (transactions : List Transaction)
    (h : ∀ t ∈ transactions, 0 < t.amount) :
    ∀ q ∈ categoryTotalsOf transactions, 0 < q.2 := by
  suffices H : ∀ (txs : List Transaction) (acc : List (String × ℚ)),
      (∀ t ∈ txs, 0 < t.amount) → (∀ q ∈ acc, 0 < q.2) →
      ∀ q ∈ txs.foldl (fun acc t => upsertCat acc t.category t.amount) acc, 0 < q.2 by
    exact H transactions [] h (by simp)
  intro txs
  induction txs with
  | nil => intro acc _ hacc q hq; exact hacc q hq
  | cons t rest ih =>
    intro acc hl hacc q hq
    simp only [List.foldl_cons] at hq
    exact ih (upsertCat acc t.category t.amount)
      (fun x hx => hl x (List.mem_cons_of_mem t hx))
      (upsertCat_pos acc t.category t.amount hacc (hl t (List.mem_cons_self t rest))) q hq

theorem categoryTotals_ne_nil (transactions : List Transaction)
    (h : transactions ≠ []) : categoryTotalsOf transactions ≠ [] := by
  suffices H : ∀ (txs : List Transaction) (acc : List (String × ℚ)), acc ≠ [] →
      txs.foldl (fun acc t => upsertCat acc t.category t.amount) acc ≠ [] by
    cases transactions with
    | nil => exact absurd rfl h
    | cons t rest =>
      unfold categoryTotalsOf
      simp only [List.foldl_cons]
      exact H rest (upsertCat [] t.category t.amount) (upsertCat_ne_nil _ _ _)
  intro txs
  induction txs with
  | nil => intro acc ha; simpa using ha
  | cons t rest ih =>
    intro acc _
    simp only [List.foldl_cons]
    exact ih _ (upsertCat_ne_nil _ _ _)

/-- C7: on a nonempty store whose amounts are all positive, the reported
`topCategory` is the first entry of the accumulation (insertion) order whose
total equals the maximum total — a tie resolves to the category that was
accumulated first. -/
theorem C7_topCategory_first_encountered (env : TimeEnv)
    (transactions : List Transaction) (hne : transactions ≠ [])
    (hpos : ∀ t ∈ transactions, 0 < t.amount) :
    (calculateStats env transactions).topCategory =
      firstMaxCategory (categoryTotalsOf transactions) := by
  have hnil : categoryTotalsOf transactions ≠ [] := categoryTotals_ne_nil transactions hne
  have hpos' : ∀ q ∈ categoryTotalsOf transactions, 0 < q.2 :=
    categoryTotals_pos transactions hpos
  have hstep : (0 : ℚ) <
      (categoryTotalsOf transactions).foldl (fun m p => max m p.2) 0 := by
    cases hc : categoryTotalsOf transactions with
    | nil => exact absurd hc hnil
    | cons p rest =>
      have hp : 0 < p.2 := by
        apply hpos'
        rw [hc]
        exact List.mem_cons_self _ _
      have hle : p.2 ≤ (p :: rest).foldl (fun m p => max m p.2) 0 :=
        foldMax_mem_le (p :: rest) 0 p (List.mem_cons_self _ _)
      exact lt_of_lt_of_le hp hle
  have hfind := topCatFold_first_max (categoryTotalsOf transactions) "-" 0 hstep
  have hstat : (calculateStats env transactions).topCategory =
      (topCatFold (categoryTotalsOf transactions) ("-", 0)).1 := rfl
  rw [hstat]
  unfold firstMaxCategory maxCatTotal
  rw [hfind]

/-- C7 witness: category totals {Food: 50, Books: 50} tie and Food, first
accumulated, wins. -/
theorem C7_topCategory_first_encountered_witness :
    (calculateStats ⟨20372, 0, 0⟩
      [⟨"t1", "groceries", 50, "Food", "2025-10-11", "c1", "u1"⟩,
       ⟨"t2", "textbook", 50, "Books", "2025-10-10", "c2", "u2"⟩]).topCategory = "Food" := by
  have h := C7_topCategory_first_encountered ⟨20372, 0, 0⟩
    [⟨"t1", "groceries", 50, "Food", "2025-10-11", "c1", "u1"⟩,
     ⟨"t2", "textbook", 50, "Books", "2025-10-10", "c2", "u2"⟩]
    (by decide) (by decide)
  exact h.trans (by decide)

/-- A comparator key is well-behaved unless it is the `NaN` of an
unparseable date string. -/
def goodKey : SKey → Bool
  | .kd none => false
  | _ => true

inductive SKind where
  | kindQ | kindD | kindS
deriving DecidableEq

def skind : SKey → SKind
  | .kq _ => .kindQ
  | .kd _ => .kindD
  | .ks _ => .kindS

def fieldKind : SortField → SKind
  | .famount => .kindQ
  | .fdate => .kindD
  | _ => .kindS

theorem sortKey_kind (f : SortField) (t : Transaction) :
    skind (sortKey f t) = fieldKind f := by
  cases f <;> rfl

theorem skLt_asymm (x y : SKey) (h1 : skLt x y = true) (h2 : skLt y x = true) :
    False := by
  cases x with
  | kq a =>
    cases y with
    | kq b =>
      simp only [skLt, decide_eq_true_eq] at h1 h2
      exact lt_asymm h1 h2
    | kd d => simp [skLt] at h1
    | ks s => simp [skLt] at h1
  | kd d =>
    cases y with
    | kq b => simp [skLt] at h1
    | kd e =>
      cases d with
      | none => simp [skLt] at h1
      | some a =>
        cases e with
        | none => simp [skLt] at h1
        | some b =>
          simp only [skLt, decide_eq_true_eq] at h1 h2
          exact lt_asymm h1 h2
    | ks s => simp [skLt] at h1
  | ks a =>
    cases y with
    | kq b => simp [skLt] at h1
    | kd d => simp [skLt] at h1
    | ks b =>
      simp only [skLt, decide_eq_true_eq] at h1 h2
      exact lt_asymm h1 h2

theorem skLt_total_eq (x y : SKey) (hk : skind x = skind y)
    (hx : goodKey x = true) (hy : goodKey y = true)
    (h1 : skLt x y = false) (h2 : skLt y x = false) : x = y := by
  cases x with
  | kq a =>
    cases y with
    | kq b =>
      simp only [skLt, decide_eq_false_iff_not] at h1 h2
      exact congrArg SKey.kq (le_antisymm (not_lt.mp h2) (not_lt.mp h1))
    | kd d => simp [skind] at hk
    | ks s => simp [skind] at hk
  | kd d =>
    cases y with
    | kq b => simp [skind] at hk
    | kd e =>
      cases d with
      | none => simp [goodKey] at hx
      | some a =>
        cases e with
        | none => simp [goodKey] at hy
        | some b =>
          simp only [skLt, decide_eq_false_iff_not] at h1 h2
          have hab : a = b := le_antisymm (not_lt.mp h2) (not_lt.mp h1)
          rw [hab]
    | ks s => simp [skind] at hk
  | ks a =>
    cases y with
    | kq b => simp [skind] at hk
    | kd d => simp [skind] at hk
    | ks b =>
      simp only [skLt, decide_eq_false_iff_not] at h1 h2
      exact congrArg SKey.ks (le_antisymm (not_lt.mp h2) (not_lt.mp h1))

theorem skLt_not_trans (x y z : SKey) (hxy : skind x = skind y)
    (hyz : skind y = skind z)
    (hx : goodKey x = true) (hy : goodKey y = true) (hz : goodKey z = true)
    (h1 : skLt y x = false) (h2 : skLt z y = false) : skLt z x = false := by
  cases x with
  | kq a =>
    cases y with
    | kq b =>
      cases z with
      | kq c =>
        simp only [skLt, decide_eq_false_iff_not] at h1 h2 ⊢
        exact not_lt.mpr (le_trans (not_lt.mp h1) (not_lt.mp h2))
      | kd d => simp [skind] at hyz
      | ks s => simp [skind] at hyz
    | kd d => simp [skind] at hxy
    | ks s => simp [skind] at hxy
  | kd d =>
    cases y with
    | kq b => simp [skind] at hxy
    | kd e =>
      cases z with
      | kq c => simp [skind] at hyz
      | kd g =>
        cases d with
        | none => simp [goodKey] at hx
        | some a =>
          cases e with
          | none => simp [goodKey] at hy
          | some b =>
            cases g with
            | none => simp [goodKey] at hz
            | some c =>
              simp only [skLt, decide_eq_false_iff_not] at h1 h2 ⊢
              exact not_lt.mpr (le_trans (not_lt.mp h1) (not_lt.mp h2))
      | ks s => simp [skind] at hyz
    | ks s => simp [skind] at hxy
  | ks a =>
    cases y with
    | kq b => simp [skind] at hxy
    | kd d => simp [skind] at hxy
    | ks b =>
      cases z with
      | kq c => simp [skind] at hyz
      | kd d => simp [skind] at hyz
      | ks c =>
        simp only [skLt, decide_eq_false_iff_not] at h1 h2 ⊢
        exact not_lt.mpr (le_trans (not_lt.mp h1) (not_lt.mp h2))

theorem cmpTx_asc_le (f : SortField) (a b : Transaction) :
    cmpTx f true a b ≤ 0 ↔ skLt (sortKey f b) (sortKey f a) = false := by
  unfold cmpTx
  cases h1 : skLt (sortKey f a) (sortKey f b) with
  | true =>
    have h2 : skLt (sortKey f b) (sortKey f a) = false := by
      cases h2 : skLt (sortKey f b) (sortKey f a)
      · rfl
      · exact (skLt_asymm _ _ h1 h2).elim
    norm_num [h1, h2]
  | false =>
    cases h2 : skLt (sortKey f b) (sortKey f a) with
    | true => norm_num [h1, h2]
    | false => norm_num [h1, h2]

theorem cmpTx_desc_le (f : SortField) (a b : Transaction) :
    cmpTx f false a b ≤ 0 ↔ skLt (sortKey f a) (sortKey f b) = false := by
  unfold cmpTx
  cases h1 : skLt (sortKey f a) (sortKey f b) with
  | true => norm_num [h1]
  | false =>
    cases h2 : skLt (sortKey f b) (sortKey f a) with
    | true => norm_num [h1, h2]
    | false => norm_num [h1, h2]

/-- Sortedness of `orderedInsert`, with totality and transitivity required
only on a predicate `S` covering the inserted element and the list. -/
theorem sorted_orderedInsert_on {α : Type _} (r : α → α → Prop) [DecidableRel r]
    (S : α → Prop) (a : α) (l : List α)
    (hmem : ∀ x ∈ l, S x) (ha : S a)
    (htot : ∀ x, S x → ∀ y, S y → r x y ∨ r y x)
    (htrans : ∀ x y z, S x → S y → S z → r x y → r y z → r x z)
    (hs : List.Sorted r l) : List.Sorted r (List.orderedInsert r a l) := by
  induction l with
  | nil => simp
  | cons b t ih =>
    rw [List.orderedInsert]
    by_cases hab : r a b
    · rw [if_pos hab, List.sorted_cons]
      refine ⟨?_, hs⟩
      intro c hc
      rcases List.mem_cons.mp hc with rfl | hct
      · exact hab
      · exact htrans a b c ha (hmem b (List.mem_cons_self _ _))
          (hmem c (List.mem_cons_of_mem _ hct)) hab
          ((List.sorted_cons.mp hs).1 c hct)
    · rw [if_neg hab, List.sorted_cons]
      constructor
      · intro c hc
        rcases (List.mem_orderedInsert r).mp hc with rfl | hct
        · rcases htot c ha b (hmem b (List.mem_cons_self _ _)) with h | h
          · exact absurd h hab
          · exact h
        · exact (List.sorted_cons.mp hs).1 c hct
      · exact ih (fun x hx => hmem x (List.mem_cons_of_mem _ hx))
          (List.sorted_cons.mp hs).2

/-- Sortedness of `insertionSort`, with totality and transitivity required
only on a predicate covering the list. -/
theorem sorted_insertionSort_on {α : Type _} (r : α → α → Prop) [DecidableRel r]
    (S : α → Prop)
    (htot : ∀ x, S x → ∀ y, S y → r x y ∨ r y x)
    (htrans : ∀ x y z, S x → S y → S z → r x y → r y z → r x z) :
    ∀ l : List α, (∀ x ∈ l, S x) → List.Sorted r (List.insertionSort r l) := by
  intro l
  induction l with
  | nil => intro _; simp
  | cons a t ih =>
    intro hmem
    rw [List.insertionSort]
    exact sorted_orderedInsert_on r S a (List.insertionSort r t)
      (fun x hx => hmem x (List.mem_cons_of_mem _ ((List.mem_insertionSort r).mp hx)))
      (hmem a (List.mem_cons_self _ _)) htot htrans
      (ih (fun x hx => hmem x (List.mem_cons_of_mem _ hx)))

/-- Two sorted permutations of each other are equal, with antisymmetry
required only on members. -/
theorem eq_of_perm_of_sorted_on {α : Type _} (r : α → α → Prop) :
    ∀ (l₁ l₂ : List α), List.Perm l₁ l₂ → List.Sorted r l₁ → List.Sorted r l₂ →
      (∀ a ∈ l₁, ∀ b ∈ l₁, r a b → r b a → a = b) → l₁ = l₂ := by
  intro l₁
  induction l₁ with
  | nil =>
    intro l₂ hp _ _ _
    exact hp.nil_eq
  | cons a t₁ ih =>
    intro l₂ hp hs₁ hs₂ hanti
    have ha2 : a ∈ l₂ := hp.mem_iff.mp (List.mem_cons_self _ _)
    cases l₂ with
    | nil => cases ha2
    | cons b t₂ =>
      have hb1 : b ∈ a :: t₁ := hp.symm.mem_iff.mp (List.mem_cons_self _ _)
      have hab : a = b := by
        rcases List.mem_cons.mp hb1 with h | hbt₁
        · exact h.symm
        rcases List.mem_cons.mp ha2 with h | hat₂
        · exact h
        · exact hanti a (List.mem_cons_self _ _) b hb1
            ((List.sorted_cons.mp hs₁).1 b hbt₁)
            ((List.sorted_cons.mp hs₂).1 a hat₂)
      subst hab
      have htp : List.Perm t₁ t₂ := hp.cons_inv
      rw [ih t₂ htp (List.sorted_cons.mp hs₁).2 (List.sorted_cons.mp hs₂).2
        (fun x hx y hy hxy hyx =>
          hanti x (List.mem_cons_of_mem _ hx) y (List.mem_cons_of_mem _ hy) hxy hyx)]

/-- C9: for any collection whose comparator keys are well-behaved (every
date parses — trivially true for the non-date fields), (1) whenever the
comparator values of the chosen field are pairwise distinct, the ascending
sorted view reversed equals the descending sorted view, and (2) in general
the two views agree key-for-key, so they can differ only in the relative
order of tied records. -/
theorem C9_sorted_view_reversal (transactions : List Transaction) (f : SortField)
    (hgood : ∀ t ∈ transactions, goodKey (sortKey f t) = true) :
    (transactions.Pairwise (fun a b => sortKey f a ≠ sortKey f b) →
      (getSortedTransactions transactions f true).reverse =
        getSortedTransactions transactions f false) ∧
    ((getSortedTransactions transactions f true).reverse.map (sortKey f) =
      (getSortedTransactions transactions f false).map (sortKey f)) := by
  have hmemAsc : ∀ x ∈ getSortedTransactions transactions f true, x ∈ transactions := by
    intro x hx
    unfold getSortedTransactions at hx
    simpa using hx
  have hmemDesc : ∀ x ∈ getSortedTransactions transactions f false, x ∈ transactions := by
    intro x hx
    unfold getSortedTransactions at hx
    simpa using hx
  have hmemRev : ∀ x ∈ (getSortedTransactions transactions f true).reverse,
      x ∈ transactions := by
    intro x hx
    exact hmemAsc x (List.mem_reverse.mp hx)
  -- ascending sortedness
  have hasc : List.Sorted (fun a b => cmpTx f true a b ≤ 0)
      (getSortedTransactions transactions f true) := by
    apply sorted_insertionSort_on _ (fun t => t ∈ transactions)
    · intro x _ y _
      cases h : skLt (sortKey f y) (sortKey f x) with
      | false => exact Or.inl ((cmpTx_asc_le f x y).mpr h)
      | true =>
        refine Or.inr ((cmpTx_asc_le f y x).mpr ?_)
        cases h2 : skLt (sortKey f x) (sortKey f y) with
        | false => rfl
        | true => exact (skLt_asymm _ _ h2 h).elim
    · intro x y z hx hy hz h1 h2
      rw [cmpTx_asc_le] at h1 h2 ⊢
      exact skLt_not_trans (sortKey f x) (sortKey f y) (sortKey f z)
        (by rw [sortKey_kind, sortKey_kind]) (by rw [sortKey_kind, sortKey_kind])
        (hgood x hx) (hgood y hy) (hgood z hz) h1 h2
    · exact fun x hx => hx
  have hdesc : List.Sorted (fun a b => cmpTx f false a b ≤ 0)
      (getSortedTransactions transactions f false) := by
    apply sorted_insertionSort_on _ (fun t => t ∈ transactions)
    · intro x _ y _
      cases h : skLt (sortKey f x) (sortKey f y) with
      | false => exact Or.inl ((cmpTx_desc_le f x y).mpr h)
      | true =>
        refine Or.inr ((cmpTx_desc_le f y x).mpr ?_)
        cases h2 : skLt (sortKey f y) (sortKey f x) with
        | false => rfl
        | true => exact (skLt_asymm _ _ h h2).elim
    · intro x y z hx hy hz h1 h2
      rw [cmpTx_desc_le] at h1 h2 ⊢
      exact skLt_not_trans (sortKey f z) (sortKey f y) (sortKey f x)
        (by rw [sortKey_kind, sortKey_kind]) (by rw [sortKey_kind, sortKey_kind])
        (hgood z hz) (hgood y hy) (hgood x hx) h2 h1
    · exact fun x hx => hx
  -- both lists are pairwise non-increasing in the key
  have hrevP : ((getSortedTransactions transactions f true).reverse).Pairwise
      (fun a b => skLt (sortKey f a) (sortKey f b) = false) := by
    rw [List.pairwise_reverse]
    exact hasc.imp (fun h => (cmpTx_asc_le f _ _).mp h)
  have hdescP : (getSortedTransactions transactions f false).Pairwise
      (fun a b => skLt (sortKey f a) (sortKey f b) = false) := by
    exact hdesc.imp (fun h => (cmpTx_desc_le f _ _).mp h)
  have hperm : List.Perm ((getSortedTransactions transactions f true).reverse)
      (getSortedTransactions transactions f false) :=
    ((List.reverse_perm _).trans (List.perm_insertionSort _ _)).trans
      (List.perm_insertionSort _ _).symm
  constructor
  · intro hdist
    have hdist' : ∀ a ∈ transactions, ∀ b ∈ transactions, a ≠ b →
        sortKey f a ≠ sortKey f b :=
      hdist.forall (fun _ _ hab => Ne.symm hab)
    apply eq_of_perm_of_sorted_on
      (fun a b => skLt (sortKey f a) (sortKey f b) = false) _ _ hperm hrevP hdescP
    intro a ha b hb h1 h2
    by_contra hne
    exact hdist' a (hmemRev a ha) b (hmemRev b hb) hne
      (skLt_total_eq (sortKey f a) (sortKey f b)
        (by rw [sortKey_kind, sortKey_kind])
        (hgood a (hmemRev a ha)) (hgood b (hmemRev b hb)) h1 h2)
  · apply eq_of_perm_of_sorted_on (fun x y : SKey => skLt x y = false)
    · exact hperm.map (sortKey f)
    · exact List.pairwise_map.mpr hrevP
    · exact List.pairwise_map.mpr hdescP
    · intro x hx y hy h1 h2
      rcases List.mem_map.mp hx with ⟨a, ha, rfl⟩
      rcases List.mem_map.mp hy with ⟨b, hb, rfl⟩
      exact skLt_total_eq (sortKey f a) (sortKey f b)
        (by rw [sortKey_kind, sortKey_kind])
        (hgood a (hmemRev a ha)) (hgood b (hmemRev b hb)) h1 h2

/-- C9 witness: two records with distinct amounts, sorted by amount. -/
theorem C9_sorted_view_reversal_witness :
    (getSortedTransactions
        [⟨"t1", "groceries", 5, "Food", "2025-10-11", "c1", "u1"⟩,
         ⟨"t2", "textbook", 7, "Books", "2025-10-10", "c2", "u2"⟩] .famount true).reverse =
      getSortedTransactions
        [⟨"t1", "groceries", 5, "Food", "2025-10-11", "c1", "u1"⟩,
         ⟨"t2", "textbook", 7, "Books", "2025-10-10", "c2", "u2"⟩] .famount false := by
  have h := C9_sorted_view_reversal
    [⟨"t1", "groceries", 5, "Food", "2025-10-11", "c1", "u1"⟩,
     ⟨"t2", "textbook", 7, "Books", "2025-10-10", "c2", "u2"⟩] .famount (by decide)
  exact h.1 (by decide)

end FinanceTracker
